import Mathlib

/-!
Verification of the Wordle solver engine (`wordle-solver.js`): the pattern
evaluator, the compatibility filter, letter-state bookkeeping, the scoring
functions and the recommendation pool selection, shallowly embedded as
executable Lean definitions, together with the properties claimed for them.
-/

/-- Feedback symbol for one letter position: `green`, `yellow` or `grey`. -/
inductive Res
  | green
  | yellow
  | grey
deriving DecidableEq, Repr

/-- A word is a list of characters; the solver works with 5-letter words. -/
abbrev Word := List Char

/-- Entry of a feedback pattern at position `i` (out-of-range positions read `grey`). -/
def resAt (result : List Res) (i : Nat) : Res :=
  result.getD i Res.grey

/-- Letter of a word at position `i` (out-of-range positions read a space). -/
def letterAt (w : Word) (i : Nat) : Char :=
  w.getD i ' '

/-- First pass of `getResultPattern`: mark green every position where guess and
answer agree. -/
def initialResult (guess answer : Word) : List Res :=
  (List.range 5).map fun i =>
    if letterAt guess i == letterAt answer i then Res.green else Res.grey

/-- Answer positions consumed by the first pass of `getResultPattern`. -/
def initialUsed (guess answer : Word) : List Nat :=
  (List.range 5).filter fun i => letterAt guess i == letterAt answer i

/-- Left-to-right scan for the first unconsumed answer position holding letter `c`
(the inner `j` loop of `getResultPattern`). -/
def findUnused (answer : Word) (used : List Nat) (c : Char) : Option Nat :=
  (List.range 5).find? fun j => !(used.contains j) && (letterAt answer j == c)

/-- Second pass of `getResultPattern`: walk the positions in order and turn a grey
position into yellow when an unconsumed answer position holds its letter,
consuming that answer position. -/
def pass2 (guess answer : Word) : List Nat → List Res × List Nat → List Res × List Nat
  | [], st => st
  | i :: rest, (result, used) =>
    if resAt result i == Res.grey then
      match findUnused answer used (letterAt guess i) with
      | some j => pass2 guess answer rest (result.set i Res.yellow, j :: used)
      | none => pass2 guess answer rest (result, used)
    else pass2 guess answer rest (result, used)

/-- The two-pass feedback evaluator (`getResultPattern` in the source): greens
first, then yellows consuming answer positions left to right. -/
def getResultPattern (guess answer : Word) : List Res :=
  (pass2 guess answer (List.range 5) (initialResult guess answer, initialUsed guess answer)).1

/-- `true` when a feedback symbol is yellow or green. -/
def isGY (r : Res) : Bool :=
  r == Res.yellow || r == Res.green

/-- Number of positions below 5 where the guess holds letter `c` and the pattern
marks it green or yellow. -/
def gyCount (guess : Word) (result : List Res) (c : Char) : Nat :=
  (List.range 5).countP fun i => letterAt guess i == c && isGY (resAt result i)

/-- Number of consumed answer positions holding letter `c`. -/
def usedFor (answer : Word) (used : List Nat) (c : Char) : Nat :=
  used.countP fun j => letterAt answer j == c

/-- Invariant tying the feedback under construction to the consumed answer
positions: the pattern has five entries, the consumed positions are distinct
answer positions, and for every letter the green/yellow markings at positions of
that letter match the consumed answer positions holding it. -/
def Pass2Inv (guess answer : Word) (result : List Res) (used : List Nat) : Prop :=
  result.length = 5 ∧ used.Nodup ∧ (∀ j ∈ used, j < 5) ∧
    ∀ c, gyCount guess result c = usedFor answer used c

/-- The compatibility check (`isWordCompatible` in the source): per-position
green/yellow/grey constraints, then the multiplicity check for yellow letters. -/
def isWordCompatible (word guess : Word) (result : List Res) : Bool :=
  ((List.range 5).all fun i =>
    let guessLetter := letterAt guess i
    let wordLetter := letterAt word i
    match resAt result i with
    | Res.green => wordLetter == guessLetter
    | Res.yellow => wordLetter != guessLetter && word.contains guessLetter
    | Res.grey =>
      let hasYellowOrGreen := (List.range 5).any fun idx =>
        isGY (resAt result idx) && (letterAt guess idx == guessLetter)
      !(!hasYellowOrGreen && word.contains guessLetter)) &&
  ((List.range 5).all fun i =>
    if resAt result i == Res.yellow then
      let letter := letterAt guess i
      let guessCount := (List.range 5).countP fun idx =>
        letterAt guess idx == letter && isGY (resAt result idx)
      let wordCount := word.countP fun l => l == letter
      decide (guessCount ≤ wordCount)
    else true)

/-- Candidate filtering (`filterWords` in the source): keep the words compatible
with the submitted guess and feedback. -/
def filterWords (guess : Word) (result : List Res) (possibleWords : List Word) : List Word :=
  possibleWords.filter fun word => isWordCompatible word guess result

/-- The letter bookkeeping owned by the solver: tested, known and excluded letters. -/
structure LetterState where
  tested : Finset Char
  known : Finset Char
  excluded : Finset Char
deriving DecidableEq

/-- The empty letter bookkeeping (constructor / `resetGame` state). -/
def LetterState.empty : LetterState :=
  ⟨∅, ∅, ∅⟩

/-- Whether the letter guessed at position `i` is green or yellow at some other
position of the same guess (the `appearsElsewhere` check of the source). -/
def appearsElsewhere (guess : Word) (result : List Res) (i : Nat) : Bool :=
  (List.range 5).any fun idx =>
    idx != i && letterAt guess idx == letterAt guess i &&
      (resAt result idx == Res.green || resAt result idx == Res.yellow)

/-- One position of the letter bookkeeping update: the guessed letter becomes
tested; a green/yellow letter becomes known; a grey letter becomes excluded only
when it is not green/yellow at another position of the same guess. -/
def ultStep (guess : Word) (result : List Res) (s : LetterState) (i : Nat) : LetterState :=
  let letter := letterAt guess i
  let s1 : LetterState := { s with tested := insert letter s.tested }
  if resAt result i == Res.green || resAt result i == Res.yellow then
    { s1 with known := insert letter s1.known }
  else if resAt result i == Res.grey then
    if !appearsElsewhere guess result i then
      { s1 with excluded := insert letter s1.excluded }
    else s1
  else s1

/-- Letter bookkeeping update (`updateLetterTracking` in the source): apply
`ultStep` to the five letter positions in order. -/
def updateLetterTracking (st : LetterState) (guess : Word) (result : List Res) : LetterState :=
  (List.range 5).foldl (ultStep guess result) st

/-- Per-pattern information weight (`calculateExpectedInformation` in the source):
green 1.5, yellow 1.0, grey 0.4, summed over the pattern. -/
def calculateExpectedInformation (pattern : List Res) : ℚ :=
  (pattern.map fun r =>
    match r with
    | Res.green => (1.5 : ℚ)
    | Res.yellow => (1.0 : ℚ)
    | Res.grey => (0.4 : ℚ)).sum

/-- Insert an answer into the pattern-keyed group map (the `resultGroups` map in
the source): append to the existing group of that key, or append a new group. -/
def addToGroups (groups : List (List Res × List Word)) (key : List Res) (answer : Word) :
    List (List Res × List Word) :=
  match groups with
  | [] => [(key, [answer])]
  | (k, g) :: rest =>
    if k = key then (k, g ++ [answer]) :: rest
    else (k, g) :: addToGroups rest key answer

/-- Group the candidate answers by the feedback pattern each would produce against
`guess`, in candidate order (the grouping loop of the source's scoring functions). -/
def buildGroups (guess : Word) (possibleWords : List Word) : List (List Res × List Word) :=
  possibleWords.foldl (fun m answer => addToGroups m (getResultPattern guess answer) answer) []

/-- Probability-weighted average group size of the groups `m` over `n` candidates. -/
def groupsExpectedRemaining (m : List (List Res × List Word)) (n : Nat) : ℚ :=
  (m.map fun kg => ((kg.2.length : ℚ) / n) * kg.2.length).sum

/-- Expected-remaining metric (`calculateExpectedRemainingWords` in the source):
candidate count when at most one candidate remains, otherwise the
probability-weighted average group size rounded to one decimal place. -/
def calculateExpectedRemainingWords (guess : Word) (possibleWords : List Word) : ℚ :=
  if possibleWords.length ≤ 1 then (possibleWords.length : ℚ)
  else
    ((round (groupsExpectedRemaining (buildGroups guess possibleWords)
        possibleWords.length * 10) : ℤ) : ℚ) / 10

/-- Guess score (`calculateExpectedValue` in the source): search-space reduction
plus new-letter bonus, repeated-letter penalty, excluded-letter penalty and the
weighted average pattern information. -/
def calculateExpectedValue (guess : Word) (possibleWords : List Word)
    (testedLetters excludedLetters : Finset Char) : ℚ :=
  if possibleWords.length ≤ 1 then 0
  else
    let totalInformation :=
      (possibleWords.map fun answer =>
        calculateExpectedInformation (getResultPattern guess answer)).sum
    let expectedRemaining :=
      groupsExpectedRemaining (buildGroups guess possibleWords) possibleWords.length
    let informationGain0 := (possibleWords.length : ℚ) - expectedRemaining
    let avgInformation := totalInformation / possibleWords.length
    let guessLetters := guess.dedup
    let newLettersCount := (guessLetters.filter fun letter =>
      decide (letter ∉ testedLetters)).length
    let informationGain1 := informationGain0 + newLettersCount * 1.5
    let uniqueLetters := guessLetters.length
    let informationGain2 :=
      if uniqueLetters < 5 ∧ possibleWords.length > 10 then
        informationGain1 - ((5 : ℚ) - uniqueLetters) * 1.0
      else informationGain1
    let excludedLettersUsed := (guessLetters.filter fun letter =>
      decide (letter ∈ excludedLetters)).length
    let informationGain3 := informationGain2 - excludedLettersUsed * 3
    informationGain3 + avgInformation * 0.8

/-- Insertion into a duplicate-free letter list (`Set.prototype.add` semantics). -/
def addLetter (s : List Char) (c : Char) : List Char :=
  if c ∈ s then s else s ++ [c]

/-- Distinguishing letters of two candidate words: the letters of both words at
the positions where the two words differ (the `diffLetters` set in the source). -/
def diffLetters (word1 word2 : Word) : List Char :=
  (List.range 5).foldl
    (fun s i =>
      if letterAt word1 i == letterAt word2 i then s
      else addLetter (addLetter s (letterAt word1 i)) (letterAt word2 i))
    []

/-- Pool selection for the two-candidate endgame (`findDistinguishingWords` in the
source): allowed words containing a distinguishing letter and having five
distinct letters; any other candidate count returns the whole allowed list. -/
def findDistinguishingWords (allWords possibleWords : List Word) : List Word :=
  if possibleWords.length ≠ 2 then allWords
  else
    let word1 := possibleWords.getD 0 []
    let word2 := possibleWords.getD 1 []
    allWords.filter fun word =>
      (diffLetters word1 word2).any (fun letter => word.contains letter) &&
        (word.dedup.length == 5)

/-- One scored recommendation row (the object literals built in `findTopGuesses`). -/
structure Reco where
  word : Word
  score : ℚ
  expectedRemaining : ℚ
  newLetters : Nat
  isPossibleAnswer : Bool
  uniqueLetters : Nat
deriving DecidableEq, Repr

/-- Insert a row into a list sorted by descending score, after rows of equal score. -/
def insertDesc (x : Reco) : List Reco → List Reco
  | [] => [x]
  | y :: ys => if y.score < x.score then x :: y :: ys else y :: insertDesc x ys

/-- Stable sort by descending score (the `sort((a, b) => b.score - a.score)` call). -/
def sortByScoreDesc (rows : List Reco) : List Reco :=
  rows.foldl (fun acc x => insertDesc x acc) []

/-- The trivial recommendation row used for a sure answer (score 0, one word left). -/
def sureAnswerReco (word : Word) : Reco :=
  ⟨word, 0, 1, 0, true, word.dedup.length⟩

/-- Score every pool word and build its recommendation row (the metric loop of
`findTopGuesses`). -/
def scorePool (possibleWords : List Word)
    (testedLetters excludedLetters : Finset Char) (pool : List Word) : List Reco :=
  pool.map fun guess =>
    let guessLetters := guess.dedup
    ⟨guess,
      calculateExpectedValue guess possibleWords testedLetters excludedLetters,
      calculateExpectedRemainingWords guess possibleWords,
      (guessLetters.filter fun l => decide (l ∉ testedLetters)).length,
      possibleWords.contains guess,
      guessLetters.length⟩

/-- Recommendation computation (`findTopGuesses` in the source): empty candidates
give no recommendations; a single candidate is returned directly; otherwise a
pool is chosen by search-space size, scored, sorted by descending score, and cut
to the requested length. -/
def findTopGuesses (allWords possibleWords : List Word)
    (testedLetters excludedLetters : Finset Char) (numRecommendations : Nat) : List Reco :=
  if possibleWords.length = 0 then []
  else if possibleWords.length = 1 then [sureAnswerReco (possibleWords.getD 0 [])]
  else
    if possibleWords.length > 50 then
      (sortByScoreDesc
        (scorePool possibleWords testedLetters excludedLetters
          (allWords.take 2000))).take numRecommendations
    else if possibleWords.length > 2 then
      (sortByScoreDesc
        (scorePool possibleWords testedLetters excludedLetters allWords)).take
        numRecommendations
    else
      let pool := findDistinguishingWords allWords possibleWords
      if pool.length = 0 then possibleWords.map sureAnswerReco
      else
        (sortByScoreDesc
          (scorePool possibleWords testedLetters excludedLetters pool)).take
          numRecommendations

/-- Outcome of a recommendation refresh as shown to the caller. -/
inductive RecommendationOutcome
  | noWords
  | finalAnswer (word : Word)
  | recommendations (top : List Reco)
deriving DecidableEq, Repr

/-- Recommendation refresh (`updateRecommendations` in the source): an empty
candidate set is reported explicitly, a singleton shows the final answer, and
otherwise the top-8 scored guesses are shown. -/
def updateRecommendations (allWords possibleWords : List Word)
    (testedLetters excludedLetters : Finset Char) : RecommendationOutcome :=
  if possibleWords.length = 0 then .noWords
  else if possibleWords.length = 1 then .finalAnswer (possibleWords.getD 0 [])
  else .recommendations (findTopGuesses allWords possibleWords testedLetters excludedLetters 8)

/-- The session state owned by the solver object. -/
structure SolverState where
  answerWords : List Word
  allWords : List Word
  possibleWords : List Word
  guessHistory : List (Word × List Res)
  letters : LetterState
deriving DecidableEq

/-- Rejection reasons of `submitGuess`. -/
inductive SubmitError
  | invalidLength
  | wordNotAllowed
deriving DecidableEq, Repr

/-- Guess submission (`submitGuess` in the source): reject a guess that is not
five letters, then a guess outside the allowed vocabulary, both without touching
the state; otherwise append to history, update the letter bookkeeping and filter
the candidates. -/
def submitGuess (st : SolverState) (guess : Word) (result : List Res) :
    SolverState × Option SubmitError :=
  if guess.length ≠ 5 then (st, some .invalidLength)
  else if !(st.allWords.contains guess) then (st, some .wordNotAllowed)
  else
    ({ st with
        guessHistory := st.guessHistory ++ [(guess, result)]
        letters := updateLetterTracking st.letters guess result
        possibleWords := filterWords guess result st.possibleWords }, none)

/-- The initial session state over the loaded vocabularies. -/
def initialState (answerWords allWords : List Word) : SolverState :=
  ⟨answerWords, allWords, answerWords, [], LetterState.empty⟩

/-- Run a sequence of submitted guess/feedback records through the session. -/
def runSession (st : SolverState) : List (Word × List Res) → SolverState
  | [] => st
  | (guess, result) :: rest => runSession (submitGuess st guess result).1 rest

/-- Spec description of the pattern groups: for each feedback pattern some
candidate would produce against `guess`, the candidates producing it. -/
def specGroups (guess : Word) (possibleWords : List Word) : List (List Word) :=
  ((possibleWords.map fun answer => getResultPattern guess answer).dedup).map fun p =>
    possibleWords.filter fun answer => decide (getResultPattern guess answer = p)

/-- Spec formula for the expected number of remaining candidates:
the sum over pattern groups of `(|group| / |candidates|) * |group|`. -/
def expectedRemainingSpec (guess : Word) (possibleWords : List Word) : ℚ :=
  ((specGroups guess possibleWords).map fun g =>
    ((g.length : ℚ) / possibleWords.length) * g.length).sum

/-- Spec formula for the guess score: search-space reduction, plus 1.5 per
distinct untested letter, minus 1.0 per missing distinct letter when more than
ten candidates remain, minus 3.0 per distinct excluded letter used, plus 0.8
times the average per-pattern information weight. -/
def scoreSpec (guess : Word) (possibleWords : List Word)
    (testedLetters excludedLetters : Finset Char) : ℚ :=
  if possibleWords.length ≤ 1 then 0
  else
    let n : ℚ := possibleWords.length
    let newLetters := (guess.toFinset.filter fun l => l ∉ testedLetters).card
    let uniqueLetters := guess.toFinset.card
    let excludedUsed := (guess.toFinset.filter fun l => l ∈ excludedLetters).card
    let avgInformation :=
      (possibleWords.map fun answer =>
        calculateExpectedInformation (getResultPattern guess answer)).sum / n
    (n - expectedRemainingSpec guess possibleWords) + 1.5 * newLetters -
        (if uniqueLetters < 5 ∧ possibleWords.length > 10 then ((5 : ℚ) - uniqueLetters) * 1.0
          else 0) -
        3.0 * excludedUsed + 0.8 * avgInformation

/-- First group stored under a pattern key in the group map. -/
def lookupGroup (key : List Res) : List (List Res × List Word) → Option (List Word)
  | [] => none
  | (k, g) :: rest => if k = key then some g else lookupGroup key rest

/-- Append newly grouped words to an optional existing group. -/
def combineGroup : Option (List Word) → List Word → Option (List Word)
  | none, [] => none
  | none, l => some l
  | some g, l => some (g ++ l)

/-- The pattern keys of the group map, in insertion order. -/
def keysOf (m : List (List Res × List Word)) : List (List Res) :=
  m.map Prod.fst

theorem countP_update {p q : Nat → Bool} {l : List Nat} (hnd : l.Nodup) {i0 : Nat}
    (hmem : i0 ∈ l) (hpq : ∀ j ∈ l, j ≠ i0 → p j = q j) (hp : p i0 = true)
    (hq : q i0 = false) : l.countP p = l.countP q + 1 := by
  induction l with
  | nil => cases hmem
  | cons a t ih =>
    rw [List.nodup_cons] at hnd
    rw [List.countP_cons, List.countP_cons]
    rcases List.mem_cons.mp hmem with heq | hmem'
    · have hpa : p a = true := heq ▸ hp
      have hqa : q a = false := heq ▸ hq
      have ht : t.countP p = t.countP q := by
        apply List.countP_congr
        intro j hj
        have hji : j ≠ i0 := by
          intro h
          exact hnd.1 (by rwa [h, heq] at hj)
        rw [hpq j (List.mem_cons_of_mem _ hj) hji]
      rw [hpa, hqa, ht]
      simp
    · have ha : p a = q a := by
        apply hpq a (List.mem_cons_self _ _)
        intro h
        exact hnd.1 (h ▸ hmem')
      rw [ha, ih hnd.2 hmem' fun j hj hji => hpq j (List.mem_cons_of_mem _ hj) hji]
      omega

theorem resAt_set_ne (result : List Res) {i j : Nat} (v : Res) (h : i ≠ j) :
    resAt (result.set i v) j = resAt result j := by
  unfold resAt
  simp [List.getD_eq_getElem?_getD, List.getElem?_set_ne h]

theorem resAt_set_self (result : List Res) {i : Nat} (v : Res) (h : i < result.length) :
    resAt (result.set i v) i = v := by
  unfold resAt
  simp [List.getD_eq_getElem?_getD, List.getElem?_set_self, h]

theorem resAt_eq_getElem (result : List Res) {i : Nat} (h : i < result.length) :
    resAt result i = result[i] :=
  List.getD_eq_getElem result Res.grey h

theorem letterAt_mem (w : Word) (hw : w.length = 5) {j : Nat} (hj : j < 5) :
    letterAt w j ∈ w := by
  have hlt : j < w.length := by omega
  rw [letterAt, List.getD_eq_getElem w ' ' hlt]
  exact List.getElem_mem hlt

theorem mem_letterAt (w : Word) (hw : w.length = 5) {c : Char} (h : c ∈ w) :
    ∃ j, j < 5 ∧ letterAt w j = c := by
  obtain ⟨j, hlt, hj⟩ := List.getElem_of_mem h
  exact ⟨j, by omega, by rw [letterAt, List.getD_eq_getElem w ' ' hlt, hj]⟩

theorem isGY_iff (r : Res) : isGY r = true ↔ r ≠ Res.grey := by
  cases r <;> simp [isGY]

theorem findUnused_some {answer : Word} {used : List Nat} {c : Char} {j : Nat}
    (h : findUnused answer used c = some j) :
    j < 5 ∧ j ∉ used ∧ letterAt answer j = c := by
  unfold findUnused at h
  have hmem : j ∈ List.range 5 := List.mem_of_find?_eq_some h
  have hp := List.find?_some h
  rw [Bool.and_eq_true, Bool.not_eq_true'] at hp
  exact ⟨List.mem_range.mp hmem, by simpa using hp.1, by simpa using hp.2⟩

theorem findUnused_none {answer : Word} {used : List Nat} {c : Char}
    (h : findUnused answer used c = none) :
    ∀ j, j < 5 → letterAt answer j = c → j ∈ used := by
  intro j hj hc
  have := List.find?_eq_none.mp h j (List.mem_range.mpr hj)
  rw [Bool.and_eq_true, Bool.not_eq_true'] at this
  by_contra hmem
  exact this ⟨by simpa using hmem, by simpa using hc⟩

theorem length_initialResult (guess answer : Word) :
    (initialResult guess answer).length = 5 := by
  simp [initialResult]

theorem resAt_initialResult (guess answer : Word) {i : Nat} (h : i < 5) :
    resAt (initialResult guess answer) i =
      if letterAt guess i = letterAt answer i then Res.green else Res.grey := by
  unfold resAt initialResult
  have hlt : i < ((List.range 5).map fun i =>
      if letterAt guess i == letterAt answer i then Res.green else Res.grey).length := by
    simpa using h
  rw [List.getD_eq_getElem _ _ hlt]
  simp [h]

theorem usedFor_cons (answer : Word) (j : Nat) (used : List Nat) (c : Char) :
    usedFor answer (j :: used) c =
      usedFor answer used c + if letterAt answer j == c then 1 else 0 :=
  List.countP_cons _ _ _

theorem pass2Inv_init (guess answer : Word) :
    Pass2Inv guess answer (initialResult guess answer) (initialUsed guess answer) := by
  refine ⟨length_initialResult guess answer, ?_, ?_, ?_⟩
  · exact (List.nodup_range 5).filter _
  · intro j hj
    rw [initialUsed, List.mem_filter] at hj
    exact List.mem_range.mp hj.1
  · intro c
    unfold gyCount usedFor initialUsed
    rw [List.countP_filter]
    apply List.countP_congr
    intro i hi
    have hi5 : i < 5 := List.mem_range.mp hi
    rw [resAt_initialResult guess answer hi5]
    by_cases heq : letterAt guess i = letterAt answer i
    · rw [if_pos heq]
      simp [isGY, heq]
    · rw [if_neg heq]
      simp [isGY, heq]

theorem pass2Inv_step {guess answer : Word} {result : List Res} {used : List Nat}
    {i0 j : Nat} (hinv : Pass2Inv guess answer result used) (hi0 : i0 < 5)
    (hgrey : resAt result i0 = Res.grey)
    (hfind : findUnused answer used (letterAt guess i0) = some j) :
    Pass2Inv guess answer (result.set i0 Res.yellow) (j :: used) := by
  obtain ⟨hlen, hnd, hlt, hcount⟩ := hinv
  obtain ⟨hj5, hjused, hja⟩ := findUnused_some hfind
  refine ⟨by simpa using hlen, List.nodup_cons.mpr ⟨hjused, hnd⟩, ?_, ?_⟩
  · intro x hx
    rcases List.mem_cons.mp hx with rfl | hx
    · exact hj5
    · exact hlt x hx
  · intro c
    rw [usedFor_cons]
    by_cases hc : letterAt guess i0 = c
    · have hans : (letterAt answer j == c) = true := by
        rw [beq_iff_eq, hja, hc]
      have hstep : gyCount guess (result.set i0 Res.yellow) c = gyCount guess result c + 1 := by
        unfold gyCount
        apply countP_update (List.nodup_range 5) (List.mem_range.mpr hi0)
        · intro j2 hj2 hne
          rw [resAt_set_ne result _ (Ne.symm hne)]
        · have hset : resAt (result.set i0 Res.yellow) i0 = Res.yellow :=
            resAt_set_self result _ (by omega)
          simp [hc, hset, isGY]
        · simp [hc, hgrey, isGY]
      rw [hstep, hcount c, hans]
      simp
    · have hans : (letterAt answer j == c) = false := by
        rw [beq_eq_false_iff_ne, hja]
        exact hc
      have hstep : gyCount guess (result.set i0 Res.yellow) c = gyCount guess result c := by
        unfold gyCount
        apply List.countP_congr
        intro i hi
        by_cases hii : i = i0
        · subst hii
          simp [hc]
        · rw [resAt_set_ne result _ (Ne.symm hii)]
      rw [hstep, hcount c, hans]
      simp

theorem pass2_inv (guess answer : Word) (idxs : List Nat) :
    ∀ result used, Pass2Inv guess answer result used → (∀ i ∈ idxs, i < 5) →
      Pass2Inv guess answer (pass2 guess answer idxs (result, used)).1
        (pass2 guess answer idxs (result, used)).2 := by
  induction idxs with
  | nil =>
    intro result used hinv _
    exact hinv
  | cons i0 rest ih =>
    intro result used hinv hidx
    have hrest : ∀ i ∈ rest, i < 5 := fun i hi => hidx i (List.mem_cons_of_mem _ hi)
    by_cases hgrey : resAt result i0 = Res.grey
    · cases hfind : findUnused answer used (letterAt guess i0) with
      | some j =>
        have hred : pass2 guess answer (i0 :: rest) (result, used) =
            pass2 guess answer rest (result.set i0 Res.yellow, j :: used) := by
          simp [pass2, hgrey, hfind]
        rw [hred]
        exact ih _ _ (pass2Inv_step hinv (hidx i0 (List.mem_cons_self _ _)) hgrey hfind) hrest
      | none =>
        have hred : pass2 guess answer (i0 :: rest) (result, used) =
            pass2 guess answer rest (result, used) := by
          simp [pass2, hgrey, hfind]
        rw [hred]
        exact ih _ _ hinv hrest
    · have hred : pass2 guess answer (i0 :: rest) (result, used) =
          pass2 guess answer rest (result, used) := by
        simp [pass2, hgrey]
      rw [hred]
      exact ih _ _ hinv hrest

theorem pass2_resAt_cases (guess answer : Word) (idxs : List Nat) :
    ∀ result used (i : Nat),
      resAt (pass2 guess answer idxs (result, used)).1 i = resAt result i ∨
        (resAt result i = Res.grey ∧
          resAt (pass2 guess answer idxs (result, used)).1 i = Res.yellow) := by
  induction idxs with
  | nil =>
    intro result used i
    exact Or.inl rfl
  | cons i0 rest ih =>
    intro result used i
    by_cases hgrey : resAt result i0 = Res.grey
    · cases hfind : findUnused answer used (letterAt guess i0) with
      | some j =>
        have hred : pass2 guess answer (i0 :: rest) (result, used) =
            pass2 guess answer rest (result.set i0 Res.yellow, j :: used) := by
          simp [pass2, hgrey, hfind]
        rw [hred]
        rcases ih (result.set i0 Res.yellow) (j :: used) i with h | ⟨h1, h2⟩
        · by_cases hii : i = i0
          · subst hii
            by_cases hlen : i < result.length
            · rw [resAt_set_self result _ hlen] at h
              exact Or.inr ⟨hgrey, h⟩
            · have hsetid : result.set i Res.yellow = result :=
                List.set_eq_of_length_le (by omega)
              rw [hsetid] at h ⊢
              exact Or.inl h
          · rw [resAt_set_ne result _ (Ne.symm hii)] at h
            exact Or.inl h
        · by_cases hii : i = i0
          · subst hii
            exact Or.inr ⟨hgrey, h2⟩
          · rw [resAt_set_ne result _ (Ne.symm hii)] at h1
            exact Or.inr ⟨h1, h2⟩
      | none =>
        have hred : pass2 guess answer (i0 :: rest) (result, used) =
            pass2 guess answer rest (result, used) := by
          simp [pass2, hgrey, hfind]
        rw [hred]
        exact ih result used i
    · have hred : pass2 guess answer (i0 :: rest) (result, used) =
          pass2 guess answer rest (result, used) := by
        simp [pass2, hgrey]
      rw [hred]
      exact ih result used i

theorem pass2_preserve_nongrey (guess answer : Word) (idxs : List Nat)
    (result : List Res) (used : List Nat) (i : Nat) (h : resAt result i ≠ Res.grey) :
    resAt (pass2 guess answer idxs (result, used)).1 i = resAt result i := by
  rcases pass2_resAt_cases guess answer idxs result used i with h1 | ⟨h1, _⟩
  · exact h1
  · exact absurd h1 h

theorem getResultPattern_eq_pass2 (guess answer : Word) :
    getResultPattern guess answer =
      (pass2 guess answer (List.range 5)
        (initialResult guess answer, initialUsed guess answer)).1 :=
  rfl

theorem getResultPattern_inv (guess answer : Word) :
    Pass2Inv guess answer (getResultPattern guess answer)
      (pass2 guess answer (List.range 5)
        (initialResult guess answer, initialUsed guess answer)).2 :=
  pass2_inv guess answer (List.range 5) _ _ (pass2Inv_init guess answer)
    (fun i hi => List.mem_range.mp hi)

theorem length_getResultPattern (guess answer : Word) :
    (getResultPattern guess answer).length = 5 := by
  obtain ⟨hlen, -, -, -⟩ := getResultPattern_inv guess answer
  exact hlen

theorem getResultPattern_resAt_cases (guess answer : Word) (i : Nat) :
    resAt (getResultPattern guess answer) i = resAt (initialResult guess answer) i ∨
      (resAt (initialResult guess answer) i = Res.grey ∧
        resAt (getResultPattern guess answer) i = Res.yellow) := by
  rw [getResultPattern_eq_pass2]
  exact pass2_resAt_cases guess answer (List.range 5) _ _ i

theorem getResultPattern_of_init_nongrey (guess answer : Word) (i : Nat)
    (h : resAt (initialResult guess answer) i ≠ Res.grey) :
    resAt (getResultPattern guess answer) i = resAt (initialResult guess answer) i := by
  rw [getResultPattern_eq_pass2]
  exact pass2_preserve_nongrey guess answer (List.range 5) _ _ i h

theorem getResultPattern_green_iff (guess answer : Word) {i : Nat} (hi : i < 5) :
    resAt (getResultPattern guess answer) i = Res.green ↔
      letterAt guess i = letterAt answer i := by
  constructor
  · intro h
    by_cases heq : letterAt guess i = letterAt answer i
    · exact heq
    · exfalso
      have hinit : resAt (initialResult guess answer) i = Res.grey := by
        rw [resAt_initialResult guess answer hi, if_neg heq]
      rcases getResultPattern_resAt_cases guess answer i with h1 | ⟨-, h2⟩
      · rw [h, hinit] at h1
        cases h1
      · rw [h] at h2
        cases h2
  · intro heq
    have hinit : resAt (initialResult guess answer) i = Res.green := by
      rw [resAt_initialResult guess answer hi, if_pos heq]
    rw [getResultPattern_of_init_nongrey guess answer i (by rw [hinit]; simp)]
    exact hinit

theorem getResultPattern_gy_mem (guess answer : Word) {i : Nat} (hi : i < 5) {c : Char}
    (hc : letterAt guess i = c) (hgy : resAt (getResultPattern guess answer) i ≠ Res.grey) :
    ∃ j, j < 5 ∧ letterAt answer j = c := by
  obtain ⟨-, -, hlt, hcount⟩ := getResultPattern_inv guess answer
  have hpos : 0 < gyCount guess (getResultPattern guess answer) c := by
    rw [gyCount, List.countP_pos_iff]
    exact ⟨i, List.mem_range.mpr hi, by simp [hc, (isGY_iff _).mpr hgy]⟩
  rw [hcount c, usedFor, List.countP_pos_iff] at hpos
  obtain ⟨j, hj, hjc⟩ := hpos
  exact ⟨j, hlt j hj, by simpa using hjc⟩

theorem pass2_hits (guess answer : Word) (c : Char)
    (hans : ∃ j, j < 5 ∧ letterAt answer j = c) (idxs : List Nat) :
    ∀ result used, Pass2Inv guess answer result used → (∀ i ∈ idxs, i < 5) →
      (∃ i ∈ idxs, letterAt guess i = c ∧ resAt result i = Res.grey) →
      (∀ i, i < 5 → letterAt guess i = c → resAt result i = Res.grey) →
      ∃ i, i < 5 ∧ letterAt guess i = c ∧
        resAt (pass2 guess answer idxs (result, used)).1 i ≠ Res.grey := by
  induction idxs with
  | nil =>
    rintro result used - - ⟨i, hi, -⟩ -
    cases hi
  | cons i0 rest ih =>
    rintro result used hinv hidx ⟨iw, hiw, hwc, hwgrey⟩ hall
    have hi05 : i0 < 5 := hidx i0 (List.mem_cons_self _ _)
    have hrest : ∀ i ∈ rest, i < 5 := fun i hi => hidx i (List.mem_cons_of_mem _ hi)
    obtain ⟨hlen, hnd, hlt, hcount⟩ := hinv
    by_cases hgrey : resAt result i0 = Res.grey
    · cases hfind : findUnused answer used (letterAt guess i0) with
      | some j =>
        have hred : pass2 guess answer (i0 :: rest) (result, used) =
            pass2 guess answer rest (result.set i0 Res.yellow, j :: used) := by
          simp [pass2, hgrey, hfind]
        rw [hred]
        by_cases hc0 : letterAt guess i0 = c
        · refine ⟨i0, hi05, hc0, ?_⟩
          have hset : resAt (result.set i0 Res.yellow) i0 = Res.yellow :=
            resAt_set_self result _ (by rw [hlen]; exact hi05)
          rw [pass2_preserve_nongrey _ _ _ _ _ _ (by rw [hset]; simp), hset]
          simp
        · have hinv' : Pass2Inv guess answer (result.set i0 Res.yellow) (j :: used) :=
            pass2Inv_step ⟨hlen, hnd, hlt, hcount⟩ hi05 hgrey hfind
          have hne : iw ≠ i0 := fun h => hc0 (h ▸ hwc)
          have hwit : ∃ i ∈ rest, letterAt guess i = c ∧
              resAt (result.set i0 Res.yellow) i = Res.grey := by
            rcases List.mem_cons.mp hiw with h | h
            · exact absurd h hne
            · exact ⟨iw, h, hwc, by rw [resAt_set_ne result _ (Ne.symm hne)]; exact hwgrey⟩
          have hall' : ∀ i, i < 5 → letterAt guess i = c →
              resAt (result.set i0 Res.yellow) i = Res.grey := by
            intro i hi hic
            have hnei : i ≠ i0 := fun h => hc0 (h ▸ hic)
            rw [resAt_set_ne result _ (Ne.symm hnei)]
            exact hall i hi hic
          exact ih _ _ hinv' hrest hwit hall'
      | none =>
        have hred : pass2 guess answer (i0 :: rest) (result, used) =
            pass2 guess answer rest (result, used) := by
          simp [pass2, hgrey, hfind]
        rw [hred]
        by_cases hc0 : letterAt guess i0 = c
        · exfalso
          rw [hc0] at hfind
          obtain ⟨j0, hj05, hj0c⟩ := hans
          have hj0used : j0 ∈ used := findUnused_none hfind j0 hj05 hj0c
          have hpos : 0 < usedFor answer used c := by
            rw [usedFor, List.countP_pos_iff]
            exact ⟨j0, hj0used, by simpa using hj0c⟩
          rw [← hcount c, gyCount, List.countP_pos_iff] at hpos
          obtain ⟨i2, hi2, hp⟩ := hpos
          rw [Bool.and_eq_true] at hp
          have hgrey2 := hall i2 (List.mem_range.mp hi2) (by simpa using hp.1)
          rw [hgrey2] at hp
          simp [isGY] at hp
        · have hne : iw ≠ i0 := fun h => hc0 (h ▸ hwc)
          have hwit : ∃ i ∈ rest, letterAt guess i = c ∧ resAt result i = Res.grey := by
            rcases List.mem_cons.mp hiw with h | h
            · exact absurd h hne
            · exact ⟨iw, h, hwc, hwgrey⟩
          exact ih _ _ ⟨hlen, hnd, hlt, hcount⟩ hrest hwit hall
    · have hred : pass2 guess answer (i0 :: rest) (result, used) =
          pass2 guess answer rest (result, used) := by
        simp [pass2, hgrey]
      rw [hred]
      have hne : iw ≠ i0 := fun h => hgrey (h ▸ hwgrey)
      have hwit : ∃ i ∈ rest, letterAt guess i = c ∧ resAt result i = Res.grey := by
        rcases List.mem_cons.mp hiw with h | h
        · exact absurd h hne
        · exact ⟨iw, h, hwc, hwgrey⟩
      exact ih _ _ ⟨hlen, hnd, hlt, hcount⟩ hrest hwit hall

theorem getResultPattern_hit (guess answer : Word) {c : Char}
    (hg : ∃ i, i < 5 ∧ letterAt guess i = c) (hans : ∃ j, j < 5 ∧ letterAt answer j = c) :
    ∃ i, i < 5 ∧ letterAt guess i = c ∧
      resAt (getResultPattern guess answer) i ≠ Res.grey := by
  by_cases hinit : ∀ i, i < 5 → letterAt guess i = c →
      resAt (initialResult guess answer) i = Res.grey
  · obtain ⟨i1, hi1, hc1⟩ := hg
    rw [getResultPattern_eq_pass2]
    exact pass2_hits guess answer c hans (List.range 5) _ _ (pass2Inv_init guess answer)
      (fun i hi => List.mem_range.mp hi)
      ⟨i1, List.mem_range.mpr hi1, hc1, hinit i1 hi1 hc1⟩ hinit
  · push_neg at hinit
    obtain ⟨i1, hi1, hc1, hng⟩ := hinit
    refine ⟨i1, hi1, hc1, ?_⟩
    rw [getResultPattern_of_init_nongrey guess answer i1 hng]
    exact hng

theorem countP_range_getD (l : List Char) (c : Char) :
    (List.range l.length).countP (fun i => l.getD i ' ' == c) = l.count c := by
  induction l with
  | nil => simp
  | cons a t ih =>
    rw [List.length_cons, List.range_succ_eq_map, List.countP_cons, List.countP_map]
    have hcomp : ((fun i => (a :: t).getD i ' ' == c) ∘ Nat.succ) =
        fun i => t.getD i ' ' == c := rfl
    rw [hcomp, ih, List.count_cons]
    simp [List.getD]

theorem gyCount_le_count (guess answer : Word) (ha : answer.length = 5) (c : Char) :
    gyCount guess (getResultPattern guess answer) c ≤ answer.count c := by
  obtain ⟨-, hnd, hlt, hcount⟩ := getResultPattern_inv guess answer
  rw [hcount c, usedFor, List.countP_eq_length_filter]
  have hsub : ((pass2 guess answer (List.range 5)
      (initialResult guess answer, initialUsed guess answer)).2.filter
        fun j => letterAt answer j == c).toFinset ⊆
      ((List.range 5).filter fun j => letterAt answer j == c).toFinset := by
    intro x hx
    rw [List.mem_toFinset, List.mem_filter] at hx ⊢
    exact ⟨List.mem_range.mpr (hlt x hx.1), hx.2⟩
  have hcard := Finset.card_le_card hsub
  rw [List.toFinset_card_of_nodup (hnd.filter _),
    List.toFinset_card_of_nodup ((List.nodup_range 5).filter _)] at hcard
  refine hcard.trans ?_
  rw [← List.countP_eq_length_filter]
  have : (List.range 5).countP (fun j => letterAt answer j == c) =
      (List.range answer.length).countP (fun i => answer.getD i ' ' == c) := by
    rw [ha]
    rfl
  rw [this, countP_range_getD]

theorem lookupGroup_addToGroups (m : List (List Res × List Word)) (key : List Res)
    (w : Word) (k : List Res) :
    lookupGroup k (addToGroups m key w) =
      if k = key then some ((lookupGroup k m).getD [] ++ [w]) else lookupGroup k m := by
  induction m with
  | nil =>
    rcases eq_or_ne k key with h | h
    · subst h
      simp [addToGroups, lookupGroup]
    · simp [addToGroups, lookupGroup, h, Ne.symm h]
  | cons hd tl ih =>
    obtain ⟨k0, g0⟩ := hd
    by_cases hk0 : k0 = key
    · subst hk0
      rcases eq_or_ne k0 k with h | h
      · subst h
        simp [addToGroups, lookupGroup]
      · simp [addToGroups, lookupGroup, h, Ne.symm h]
    · rcases eq_or_ne k0 k with h | h
      · subst h
        simp [addToGroups, lookupGroup, hk0, Ne.symm hk0]
      · simp [addToGroups, lookupGroup, hk0, h, ih]

theorem lookupGroup_foldl (guess : Word) (possibleWords : List Word)
    (m : List (List Res × List Word)) (k : List Res) :
    lookupGroup k
        (possibleWords.foldl
          (fun acc answer => addToGroups acc (getResultPattern guess answer) answer) m) =
      combineGroup (lookupGroup k m)
        (possibleWords.filter fun answer => decide (getResultPattern guess answer = k)) := by
  induction possibleWords generalizing m with
  | nil =>
    cases h : lookupGroup k m <;> simp [combineGroup, h]
  | cons a rest ih =>
    simp only [List.foldl_cons]
    rw [ih, lookupGroup_addToGroups]
    by_cases hpat : getResultPattern guess a = k
    · rw [if_pos hpat.symm]
      rw [List.filter_cons_of_pos (by simpa using hpat)]
      cases h : lookupGroup k m <;>
        simp [combineGroup, h, List.append_assoc]
    · rw [if_neg fun hh => hpat hh.symm]
      rw [List.filter_cons_of_neg (by simpa using hpat)]

theorem lookupGroup_buildGroups (guess : Word) (possibleWords : List Word) (k : List Res) :
    lookupGroup k (buildGroups guess possibleWords) =
      combineGroup none
        (possibleWords.filter fun answer => decide (getResultPattern guess answer = k)) := by
  unfold buildGroups
  rw [lookupGroup_foldl]
  rfl

theorem keysOf_addToGroups (m : List (List Res × List Word)) (key : List Res) (w : Word) :
    keysOf (addToGroups m key w) =
      if key ∈ keysOf m then keysOf m else keysOf m ++ [key] := by
  induction m with
  | nil => simp [addToGroups, keysOf]
  | cons hd tl ih =>
    obtain ⟨k0, g0⟩ := hd
    by_cases hk0 : k0 = key
    · subst hk0
      simp [addToGroups, keysOf]
    · have hmemc : key ∈ keysOf ((k0, g0) :: tl) ↔ key ∈ keysOf tl := by
        simp [keysOf, Ne.symm hk0]
      by_cases hmem : key ∈ keysOf tl
      · rw [if_pos (hmemc.mpr hmem)]
        simp only [addToGroups, if_neg hk0, keysOf, List.map_cons] at ih ⊢
        rw [ih, if_pos (by simpa [keysOf] using hmem)]
      · rw [if_neg (fun h => hmem (hmemc.mp h))]
        simp only [addToGroups, if_neg hk0, keysOf, List.map_cons] at ih ⊢
        rw [ih, if_neg (by simpa [keysOf] using hmem)]
        rfl

theorem keysOf_nodup_addToGroups (m : List (List Res × List Word)) (key : List Res) (w : Word)
    (h : (keysOf m).Nodup) : (keysOf (addToGroups m key w)).Nodup := by
  rw [keysOf_addToGroups]
  by_cases hmem : key ∈ keysOf m
  · simpa [hmem]
  · simp only [if_neg hmem]
    simpa [List.nodup_append] using ⟨h, hmem⟩

theorem keysOf_buildGroups_nodup (guess : Word) (possibleWords : List Word) :
    (keysOf (buildGroups guess possibleWords)).Nodup := by
  suffices h : ∀ m : List (List Res × List Word), (keysOf m).Nodup →
      (keysOf
        (possibleWords.foldl
          (fun acc answer => addToGroups acc (getResultPattern guess answer) answer) m)).Nodup by
    exact h [] (by simp [keysOf])
  induction possibleWords with
  | nil => intro m hm; simpa using hm
  | cons a rest ih =>
    intro m hm
    exact ih _ (keysOf_nodup_addToGroups _ _ _ hm)

theorem lookupGroup_eq_none_iff (m : List (List Res × List Word)) (k : List Res) :
    lookupGroup k m = none ↔ k ∉ keysOf m := by
  induction m with
  | nil => simp [lookupGroup, keysOf]
  | cons hd tl ih =>
    obtain ⟨k0, g0⟩ := hd
    rcases eq_or_ne k0 k with h | h
    · subst h
      simp [lookupGroup, keysOf]
    · simp [lookupGroup, keysOf, h, Ne.symm h, ih]

theorem mem_keysOf_buildGroups (guess : Word) (possibleWords : List Word) (k : List Res) :
    k ∈ keysOf (buildGroups guess possibleWords) ↔
      ∃ answer ∈ possibleWords, getResultPattern guess answer = k := by
  rw [← not_iff_not, ← lookupGroup_eq_none_iff, lookupGroup_buildGroups]
  rcases hf : possibleWords.filter
      (fun answer => decide (getResultPattern guess answer = k)) with _ | ⟨b, l⟩
  · rw [List.filter_eq_nil_iff] at hf
    simp only [decide_eq_true_eq] at hf
    simp only [combineGroup]
    constructor
    · rintro - ⟨a, ha, hpa⟩
      exact hf a ha hpa
    · intro _
      trivial
  · have hb : b ∈ possibleWords.filter
        (fun answer => decide (getResultPattern guess answer = k)) := by
      rw [hf]
      exact List.mem_cons_self _ _
    rw [List.mem_filter, decide_eq_true_eq] at hb
    simp only [combineGroup]
    constructor
    · intro h
      exact absurd h (by simp)
    · intro h
      exact absurd ⟨b, hb.1, hb.2⟩ h

theorem sum_map_eq_sum_keys (f : List Res × List Word → ℚ)
    (m : List (List Res × List Word)) (h : (keysOf m).Nodup) :
    (m.map f).sum =
      ((keysOf m).map fun k => f (k, (lookupGroup k m).getD [])).sum := by
  induction m with
  | nil => simp [keysOf]
  | cons hd tl ih =>
    obtain ⟨k0, g0⟩ := hd
    simp only [keysOf, List.map_cons, List.nodup_cons] at h ⊢
    obtain ⟨hk0, htl⟩ := h
    simp only [List.sum_cons, lookupGroup, if_pos rfl, Option.getD_some]
    rw [ih htl]
    congr 1
    apply congrArg
    apply List.map_congr_left
    intro k hk
    have : k0 ≠ k := by
      intro h; exact hk0 (h ▸ hk)
    simp [lookupGroup, this, keysOf]

theorem sum_over_groups (guess : Word) (possibleWords : List Word) (f : Nat → ℚ) :
    ((buildGroups guess possibleWords).map fun kg => f kg.2.length).sum =
      (((possibleWords.map fun answer => getResultPattern guess answer).dedup).map fun p =>
        f ((possibleWords.filter fun answer =>
            decide (getResultPattern guess answer = p)).length)).sum := by
  rw [sum_map_eq_sum_keys _ _ (keysOf_buildGroups_nodup guess possibleWords)]
  have hpoint : ∀ k ∈ keysOf (buildGroups guess possibleWords),
      (fun k => f ((lookupGroup k (buildGroups guess possibleWords)).getD []).length) k =
        (fun p => f ((possibleWords.filter fun answer =>
            decide (getResultPattern guess answer = p)).length)) k := by
    intro k hk
    have hlk := lookupGroup_buildGroups guess possibleWords k
    rcases hf : possibleWords.filter
        (fun answer => decide (getResultPattern guess answer = k)) with _ | ⟨b, l⟩
    · exfalso
      rw [mem_keysOf_buildGroups] at hk
      obtain ⟨a, ha, hpa⟩ := hk
      have hmem : a ∈ possibleWords.filter
          (fun answer => decide (getResultPattern guess answer = k)) := by
        rw [List.mem_filter, decide_eq_true_eq]
        exact ⟨ha, hpa⟩
      rw [hf] at hmem
      simp at hmem
    · rw [hf] at hlk
      simp only [combineGroup] at hlk
      simp [hlk, hf]
  rw [List.map_congr_left hpoint]
  have hperm : List.Perm (keysOf (buildGroups guess possibleWords))
      ((possibleWords.map fun answer => getResultPattern guess answer).dedup) := by
    rw [List.perm_ext_iff_of_nodup (keysOf_buildGroups_nodup guess possibleWords)
      (List.nodup_dedup _)]
    intro k
    rw [mem_keysOf_buildGroups, List.mem_dedup, List.mem_map]
  exact (hperm.map _).sum_eq

theorem expectedRemainingSpec_eq (guess : Word) (possibleWords : List Word) :
    groupsExpectedRemaining (buildGroups guess possibleWords) possibleWords.length =
      expectedRemainingSpec guess possibleWords := by
  unfold groupsExpectedRemaining expectedRemainingSpec specGroups
  rw [List.map_map]
  exact sum_over_groups guess possibleWords
    (fun len => ((len : ℚ) / possibleWords.length) * len)

/-- C3 counterexample: for the guess AAAAA against the three candidates ABBBB,
ACCCC, DDDDD the pattern groups have sizes 2 and 1, the spec's sum is 5/3, but
the implementation rounds to one decimal place and returns 17/10. -/
theorem expectedRemaining_exact_counterexample :
    calculateExpectedRemainingWords ['A', 'A', 'A', 'A', 'A']
        [['A', 'B', 'B', 'B', 'B'], ['A', 'C', 'C', 'C', 'C'], ['D', 'D', 'D', 'D', 'D']] ≠
      expectedRemainingSpec ['A', 'A', 'A', 'A', 'A']
        [['A', 'B', 'B', 'B', 'B'], ['A', 'C', 'C', 'C', 'C'], ['D', 'D', 'D', 'D', 'D']] := by
  have h1 : expectedRemainingSpec ['A', 'A', 'A', 'A', 'A']
      [['A', 'B', 'B', 'B', 'B'], ['A', 'C', 'C', 'C', 'C'], ['D', 'D', 'D', 'D', 'D']] =
        5 / 3 := by
    have hg : specGroups ['A', 'A', 'A', 'A', 'A']
        [['A', 'B', 'B', 'B', 'B'], ['A', 'C', 'C', 'C', 'C'], ['D', 'D', 'D', 'D', 'D']] =
          [[['A', 'B', 'B', 'B', 'B'], ['A', 'C', 'C', 'C', 'C']], [['D', 'D', 'D', 'D', 'D']]] := by
      decide
    unfold expectedRemainingSpec
    rw [hg]
    norm_num
  have h2 : calculateExpectedRemainingWords ['A', 'A', 'A', 'A', 'A']
      [['A', 'B', 'B', 'B', 'B'], ['A', 'C', 'C', 'C', 'C'], ['D', 'D', 'D', 'D', 'D']] =
        17 / 10 := by
    unfold calculateExpectedRemainingWords
    rw [if_neg (by decide), expectedRemainingSpec_eq, h1]
    norm_num [round_eq]
  rw [h1, h2]
  norm_num

/-- C3 (amended): `calculateExpectedRemainingWords` returns the candidate count
unchanged when at most one candidate remains, and otherwise the spec's sum over
pattern groups of `(|group| / |candidates|) * |group|` rounded to one decimal
place. -/
theorem expectedRemaining_rounded (guess : Word) (possibleWords : List Word) :
    calculateExpectedRemainingWords guess possibleWords =
      if possibleWords.length ≤ 1 then (possibleWords.length : ℚ)
      else ((round (expectedRemainingSpec guess possibleWords * 10) : ℤ) : ℚ) / 10 := by
  unfold calculateExpectedRemainingWords
  by_cases h : possibleWords.length ≤ 1
  · simp [h]
  · simp only [if_neg h]
    rw [expectedRemainingSpec_eq]

theorem card_filter_toFinset_eq (l : List Char) (q : Char → Prop) [DecidablePred q] :
    (l.toFinset.filter q).card = (l.dedup.filter fun a => decide (q a)).length := by
  have h1 : l.toFinset.filter q = (l.filter fun a => decide (q a)).toFinset := by
    rw [List.toFinset_filter]
    ext a
    simp
  rw [h1, List.card_toFinset]
  have hperm : List.Perm ((l.filter fun a => decide (q a)).dedup)
      (l.dedup.filter fun a => decide (q a)) := by
    rw [List.perm_ext_iff_of_nodup (List.nodup_dedup _) ((List.nodup_dedup l).filter _)]
    intro a
    simp [List.mem_filter]
  exact hperm.length_eq

/-- C4: the implemented guess score agrees with the spec's formula: search-space
reduction against the exact expected remaining, plus 1.5 per distinct untested
letter, minus 1.0 per missing distinct letter when more than ten candidates
remain, minus 3.0 per distinct excluded letter, plus 0.8 times the average
per-pattern information weight; and 0 when at most one candidate remains. -/
theorem score_correctness (guess : Word) (possibleWords : List Word)
    (testedLetters excludedLetters : Finset Char) :
    calculateExpectedValue guess possibleWords testedLetters excludedLetters =
      scoreSpec guess possibleWords testedLetters excludedLetters := by
  unfold calculateExpectedValue scoreSpec
  by_cases h : possibleWords.length ≤ 1
  · simp [h]
  · simp only [if_neg h]
    rw [card_filter_toFinset_eq, card_filter_toFinset_eq, List.card_toFinset,
      ← expectedRemainingSpec_eq]
    split_ifs <;> ring

theorem mem_addLetter (s : List Char) (a c : Char) :
    c ∈ addLetter s a ↔ c ∈ s ∨ c = a := by
  unfold addLetter
  split_ifs with h
  · constructor
    · exact Or.inl
    · rintro (hc | rfl)
      · exact hc
      · exact h
  · simp

theorem mem_diffLetters_foldl (word1 word2 : Word) (idxs : List Nat) (s : List Char)
    (c : Char) :
    c ∈ idxs.foldl
        (fun s i =>
          if letterAt word1 i == letterAt word2 i then s
          else addLetter (addLetter s (letterAt word1 i)) (letterAt word2 i)) s ↔
      c ∈ s ∨ ∃ i ∈ idxs, letterAt word1 i ≠ letterAt word2 i ∧
        (c = letterAt word1 i ∨ c = letterAt word2 i) := by
  induction idxs generalizing s with
  | nil => simp
  | cons i rest ih =>
    simp only [List.foldl_cons]
    by_cases hd : letterAt word1 i = letterAt word2 i
    · rw [if_pos (by simpa using hd), ih]
      simp [hd]
    · rw [if_neg (by simpa using hd), ih]
      rw [mem_addLetter, mem_addLetter]
      constructor
      · rintro (((hc | hc) | hc) | ⟨j, hj, hne, hcj⟩)
        · exact Or.inl hc
        · exact Or.inr ⟨i, List.mem_cons_self _ _, hd, Or.inl hc⟩
        · exact Or.inr ⟨i, List.mem_cons_self _ _, hd, Or.inr hc⟩
        · exact Or.inr ⟨j, List.mem_cons_of_mem _ hj, hne, hcj⟩
      · rintro (hc | ⟨j, hj, hne, hcj⟩)
        · exact Or.inl (Or.inl (Or.inl hc))
        · rcases List.mem_cons.mp hj with rfl | hj
          · rcases hcj with hc | hc
            · exact Or.inl (Or.inl (Or.inr hc))
            · exact Or.inl (Or.inr hc)
          · exact Or.inr ⟨j, hj, hne, hcj⟩

theorem mem_diffLetters (word1 word2 : Word) (c : Char) :
    c ∈ diffLetters word1 word2 ↔
      ∃ i < 5, letterAt word1 i ≠ letterAt word2 i ∧
        (c = letterAt word1 i ∨ c = letterAt word2 i) := by
  unfold diffLetters
  rw [mem_diffLetters_foldl]
  simp

theorem nodup_iff_dedup_length (word : Word) (hlen : word.length = 5) :
    word.dedup.length = 5 ↔ word.Nodup := by
  constructor
  · intro h
    have hsub : word.dedup.Sublist word := List.dedup_sublist word
    have : word.dedup = word := hsub.eq_of_length (by rw [h, hlen])
    rw [← this]
    exact List.nodup_dedup word
  · intro h
    rw [List.dedup_eq_self.mpr h, hlen]

/-- C5: with exactly two candidates, the distinguishing pool consists exactly of
the allowed words that contain a letter of one of the candidates at a position
where the candidates differ and that have five pairwise distinct letters, and
when that pool is empty the recommendations are precisely the two candidates
themselves (as sure-answer rows). -/
theorem two_candidate_pool (allWords : List Word) (word1 word2 : Word)
    (testedLetters excludedLetters : Finset Char) (numRecommendations : Nat)
    (hall : ∀ w ∈ allWords, w.length = 5) :
    (∀ word, word ∈ findDistinguishingWords allWords [word1, word2] ↔
        word ∈ allWords ∧
          (∃ i < 5, letterAt word1 i ≠ letterAt word2 i ∧
            (letterAt word1 i ∈ word ∨ letterAt word2 i ∈ word)) ∧
          word.Nodup) ∧
      (findDistinguishingWords allWords [word1, word2] = [] →
        findTopGuesses allWords [word1, word2] testedLetters excludedLetters
            numRecommendations =
          [sureAnswerReco word1, sureAnswerReco word2]) := by
  constructor
  · intro word
    unfold findDistinguishingWords
    rw [if_neg (by simp)]
    simp only [List.getD_cons_zero, List.getD_cons_succ]
    rw [List.mem_filter]
    simp only [Bool.and_eq_true, List.any_eq_true, beq_iff_eq]
    constructor
    · rintro ⟨hmem, ⟨l, hl, hlw⟩, hded⟩
      refine ⟨hmem, ?_, (nodup_iff_dedup_length word (hall word hmem)).mp hded⟩
      rw [mem_diffLetters] at hl
      obtain ⟨i, hi, hne, hor⟩ := hl
      refine ⟨i, hi, hne, ?_⟩
      have : l ∈ word := by simpa using hlw
      rcases hor with rfl | rfl
      · exact Or.inl this
      · exact Or.inr this
    · rintro ⟨hmem, ⟨i, hi, hne, hor⟩, hnd⟩
      refine ⟨hmem, ?_, (nodup_iff_dedup_length word (hall word hmem)).mpr hnd⟩
      rcases hor with hw | hw
      · exact ⟨letterAt word1 i, (mem_diffLetters _ _ _).mpr ⟨i, hi, hne, Or.inl rfl⟩,
          by simpa using hw⟩
      · exact ⟨letterAt word2 i, (mem_diffLetters _ _ _).mpr ⟨i, hi, hne, Or.inr rfl⟩,
          by simpa using hw⟩
  · intro hpool
    unfold findTopGuesses
    rw [if_neg (by simp), if_neg (by simp), if_neg (by simp), if_neg (by simp)]
    simp [hpool]

/-- Witness for C5: LANKY contains the distinguishing letters L and N of LIGHT
vs NIGHT and has five distinct letters, so it is in the pool; with an empty
allowed list the pool is empty and the two candidates themselves come back. -/
theorem two_candidate_pool_witness :
    ['L', 'A', 'N', 'K', 'Y'] ∈
        findDistinguishingWords [['L', 'A', 'N', 'K', 'Y']]
          [['L', 'I', 'G', 'H', 'T'], ['N', 'I', 'G', 'H', 'T']] ∧
      findTopGuesses [] [['L', 'I', 'G', 'H', 'T'], ['N', 'I', 'G', 'H', 'T']] ∅ ∅ 8 =
        [sureAnswerReco ['L', 'I', 'G', 'H', 'T'], sureAnswerReco ['N', 'I', 'G', 'H', 'T']] :=
  ⟨((two_candidate_pool [['L', 'A', 'N', 'K', 'Y']] ['L', 'I', 'G', 'H', 'T']
        ['N', 'I', 'G', 'H', 'T'] ∅ ∅ 8 (by decide)).1 _).mpr
      ⟨by decide, by decide, by decide⟩,
    (two_candidate_pool [] ['L', 'I', 'G', 'H', 'T'] ['N', 'I', 'G', 'H', 'T'] ∅ ∅ 8
      (by decide)).2 rfl⟩

/-- C2: for 5-letter words, the number of positions where the evaluator marks a
letter green or yellow never exceeds that letter's occurrence count in the
answer. -/
theorem duplicate_letter_bound (guess answer : Word) (hg : guess.length = 5)
    (ha : answer.length = 5) (c : Char) :
    gyCount guess (getResultPattern guess answer) c ≤ answer.count c :=
  gyCount_le_count guess answer ha c

/-- Witness for C2: guess SPEED against answer ERASE, letter E: at most two
positions of SPEED can be marked green/yellow for E. -/
theorem duplicate_letter_bound_witness :
    gyCount ['S', 'P', 'E', 'E', 'D']
        (getResultPattern ['S', 'P', 'E', 'E', 'D'] ['E', 'R', 'A', 'S', 'E']) 'E' ≤
      (['E', 'R', 'A', 'S', 'E'] : Word).count 'E' :=
  duplicate_letter_bound ['S', 'P', 'E', 'E', 'D'] ['E', 'R', 'A', 'S', 'E']
    (by decide) (by decide) 'E'

/-- C10: for 5-letter words the evaluator returns green at all five positions
exactly when the guess equals the answer. -/
theorem all_green_iff_eq (guess answer : Word) (hg : guess.length = 5)
    (ha : answer.length = 5) :
    getResultPattern guess answer = List.replicate 5 Res.green ↔ guess = answer := by
  constructor
  · intro h
    apply List.ext_getElem (by rw [hg, ha])
    intro i hi1 hi2
    have hi5 : i < 5 := by omega
    have hgreen : resAt (getResultPattern guess answer) i = Res.green := by
      rw [h, resAt_eq_getElem _ (by simpa using hi5), List.getElem_replicate]
    have := (getResultPattern_green_iff guess answer hi5).mp hgreen
    rwa [letterAt, letterAt, List.getD_eq_getElem guess ' ' hi1,
      List.getD_eq_getElem answer ' ' hi2] at this
  · intro h
    subst h
    apply List.ext_getElem (by rw [length_getResultPattern]; simp)
    intro i hi1 hi2
    have hi5 : i < 5 := by simpa using hi2
    have hgreen : resAt (getResultPattern guess guess) i = Res.green :=
      (getResultPattern_green_iff guess guess hi5).mpr rfl
    rw [← resAt_eq_getElem _ hi1, hgreen, List.getElem_replicate]

/-- Witness for C10: CRANE against itself is all green, and the all-green
pattern for CRANE vs CRANE forces equality. -/
theorem all_green_iff_eq_witness :
    getResultPattern ['C', 'R', 'A', 'N', 'E'] ['C', 'R', 'A', 'N', 'E'] =
      List.replicate 5 Res.green :=
  (all_green_iff_eq ['C', 'R', 'A', 'N', 'E'] ['C', 'R', 'A', 'N', 'E']
    (by decide) (by decide)).mpr rfl

/-- C1: for 5-letter words the answer itself is always compatible with the
feedback computed for any guess against it, so the true answer is never
filtered out by its own feedback. -/
theorem pattern_self_consistency (guess answer : Word) (hg : guess.length = 5)
    (ha : answer.length = 5) :
    isWordCompatible answer guess (getResultPattern guess answer) = true := by
  unfold isWordCompatible
  rw [Bool.and_eq_true, List.all_eq_true, List.all_eq_true]
  constructor
  · intro i hi
    have hi5 : i < 5 := List.mem_range.mp hi
    cases hres : resAt (getResultPattern guess answer) i with
    | green =>
      simp only [hres]
      rw [beq_iff_eq]
      exact ((getResultPattern_green_iff guess answer hi5).mp hres).symm
    | yellow =>
      simp only [hres]
      rw [Bool.and_eq_true]
      constructor
      · rw [bne_iff_ne]
        intro heq
        have hgreen : resAt (getResultPattern guess answer) i = Res.green :=
          (getResultPattern_green_iff guess answer hi5).mpr heq.symm
        rw [hres] at hgreen
        cases hgreen
      · obtain ⟨j, hj5, hjc⟩ := getResultPattern_gy_mem guess answer hi5 rfl
          (by rw [hres]; simp)
        have hmem : letterAt guess i ∈ answer := hjc ▸ letterAt_mem answer ha hj5
        simpa using hmem
    | grey =>
      simp only [hres]
      by_cases hcont : letterAt guess i ∈ answer
      · have hY : ((List.range 5).any fun idx =>
            isGY (resAt (getResultPattern guess answer) idx) &&
              (letterAt guess idx == letterAt guess i)) = true := by
          obtain ⟨j, hj5, hjc⟩ := mem_letterAt answer ha hcont
          obtain ⟨i2, hi25, hgi2, hng⟩ := getResultPattern_hit guess answer
            ⟨i, hi5, rfl⟩ ⟨j, hj5, hjc⟩
          rw [List.any_eq_true]
          exact ⟨i2, List.mem_range.mpr hi25, by simp [hgi2, (isGY_iff _).mpr hng]⟩
        simp [hY]
      · have hcf : answer.contains (letterAt guess i) = false := by
          simpa using hcont
        simp only [Bool.not_eq_true', Bool.and_eq_false_iff, Bool.not_eq_true,
          Bool.not_eq_false]
        simp [hcf]
        exact Or.inr hcont
  · intro i hi
    have hi5 : i < 5 := List.mem_range.mp hi
    by_cases hres : resAt (getResultPattern guess answer) i = Res.yellow
    · rw [if_pos (by simpa using hres)]
      rw [decide_eq_true_eq]
      exact gyCount_le_count guess answer ha (letterAt guess i)
    · rw [if_neg (by simpa using hres)]

/-- Witness for C1: TRACE survives its own feedback for the guess CRANE, and
SPEED survives its own feedback for the guess ERASE. -/
theorem pattern_self_consistency_witness :
    isWordCompatible ['T', 'R', 'A', 'C', 'E'] ['C', 'R', 'A', 'N', 'E']
        (getResultPattern ['C', 'R', 'A', 'N', 'E'] ['T', 'R', 'A', 'C', 'E']) = true ∧
      isWordCompatible ['S', 'P', 'E', 'E', 'D'] ['E', 'R', 'A', 'S', 'E']
        (getResultPattern ['E', 'R', 'A', 'S', 'E'] ['S', 'P', 'E', 'E', 'D']) = true :=
  ⟨pattern_self_consistency ['C', 'R', 'A', 'N', 'E'] ['T', 'R', 'A', 'C', 'E']
      (by decide) (by decide),
    pattern_self_consistency ['E', 'R', 'A', 'S', 'E'] ['S', 'P', 'E', 'E', 'D']
      (by decide) (by decide)⟩

theorem ultStep_known (guess : Word) (result : List Res) (s : LetterState) (i : Nat) :
    (ultStep guess result s i).known =
      if resAt result i = Res.green ∨ resAt result i = Res.yellow then
        insert (letterAt guess i) s.known
      else s.known := by
  unfold ultStep
  cases h : resAt result i <;> simp [apply_ite]

theorem appearsElsewhere_false {guess : Word} {result : List Res} {i : Nat}
    (h : appearsElsewhere guess result i = false) :
    ∀ idx, idx < 5 → idx ≠ i → letterAt guess idx = letterAt guess i →
      resAt result idx = Res.grey := by
  rw [appearsElsewhere, List.any_eq_false] at h
  intro idx hidx hii hic
  have hnp := h idx (List.mem_range.mpr hidx)
  cases hidx2 : resAt result idx with
  | green =>
    exfalso
    apply hnp
    rw [hidx2]
    simp [hii, hic]
  | yellow =>
    exfalso
    apply hnp
    rw [hidx2]
    simp [hii, hic]
  | grey => rfl

theorem ultStep_excluded (guess : Word) (result : List Res) (s : LetterState) (i : Nat) :
    (ultStep guess result s i).excluded =
      if resAt result i = Res.grey ∧ appearsElsewhere guess result i = false then
        insert (letterAt guess i) s.excluded
      else s.excluded := by
  unfold ultStep
  cases h : resAt result i <;>
    cases h2 : appearsElsewhere guess result i <;>
    simp [h2, apply_ite]

theorem ultStep_excluded_sub (guess : Word) (result : List Res) (s : LetterState)
    (i0 : Nat) (c : Char) (h : c ∈ (ultStep guess result s i0).excluded) :
    c ∈ s.excluded ∨
      (letterAt guess i0 = c ∧
        ∀ idx, idx < 5 → letterAt guess idx = c → resAt result idx = Res.grey) := by
  rw [ultStep_excluded] at h
  by_cases hcond : resAt result i0 = Res.grey ∧ appearsElsewhere guess result i0 = false
  · rw [if_pos hcond] at h
    obtain ⟨hres, happ⟩ := hcond
    rcases Finset.mem_insert.mp h with rfl | h2
    · refine Or.inr ⟨rfl, ?_⟩
      intro idx hidx hic
      by_cases hii : idx = i0
      · rw [hii]
        exact hres
      · exact appearsElsewhere_false happ idx hidx hii hic
    · exact Or.inl h2
  · rw [if_neg hcond] at h
    exact Or.inl h

theorem foldl_ult_known (guess : Word) (result : List Res) (idxs : List Nat) :
    ∀ s c, c ∈ (idxs.foldl (ultStep guess result) s).known →
      c ∈ s.known ∨ ∃ i, letterAt guess i = c ∧ resAt result i ≠ Res.grey := by
  induction idxs with
  | nil =>
    intro s c h
    exact Or.inl h
  | cons i0 rest ih =>
    intro s c h
    rcases ih _ c h with h1 | hw
    · rw [ultStep_known] at h1
      by_cases hres : resAt result i0 = Res.green ∨ resAt result i0 = Res.yellow
      · rw [if_pos hres] at h1
        rcases Finset.mem_insert.mp h1 with rfl | h2
        · refine Or.inr ⟨i0, rfl, ?_⟩
          rcases hres with h | h <;> rw [h] <;> simp
        · exact Or.inl h2
      · rw [if_neg hres] at h1
        exact Or.inl h1
    · exact Or.inr hw

theorem foldl_ult_excluded (guess : Word) (result : List Res) (idxs : List Nat) :
    ∀ s c, (∀ i ∈ idxs, i < 5) → c ∈ (idxs.foldl (ultStep guess result) s).excluded →
      c ∈ s.excluded ∨
        ((∃ i, i < 5 ∧ letterAt guess i = c) ∧
          ∀ idx, idx < 5 → letterAt guess idx = c → resAt result idx = Res.grey) := by
  induction idxs with
  | nil =>
    intro s c _ h
    exact Or.inl h
  | cons i0 rest ih =>
    intro s c hidx h
    rcases ih _ c (fun i hi => hidx i (List.mem_cons_of_mem _ hi)) h with h1 | hw
    · rcases ultStep_excluded_sub guess result s i0 c h1 with h2 | ⟨hic, hall⟩
      · exact Or.inl h2
      · exact Or.inr ⟨⟨i0, hidx i0 (List.mem_cons_self _ _), hic⟩, hall⟩
    · exact Or.inr hw

theorem updateLetterTracking_known_mem {answer : Word} (ha : answer.length = 5)
    (guess : Word) (s : LetterState) {c : Char}
    (h : c ∈ (updateLetterTracking s guess (getResultPattern guess answer)).known) :
    c ∈ s.known ∨ c ∈ answer := by
  rcases foldl_ult_known guess (getResultPattern guess answer) (List.range 5) s c h with
    h1 | ⟨i, hic, hng⟩
  · exact Or.inl h1
  · by_cases hi5 : i < 5
    · obtain ⟨j, hj5, hjc⟩ := getResultPattern_gy_mem guess answer hi5 hic hng
      exact Or.inr (hjc ▸ letterAt_mem answer ha hj5)
    · exfalso
      apply hng
      rw [resAt, List.getD_eq_default]
      rw [length_getResultPattern]
      omega

theorem updateLetterTracking_excluded_not_mem {answer : Word} (ha : answer.length = 5)
    (guess : Word) (s : LetterState) {c : Char}
    (h : c ∈ (updateLetterTracking s guess (getResultPattern guess answer)).excluded) :
    c ∈ s.excluded ∨ c ∉ answer := by
  rcases foldl_ult_excluded guess (getResultPattern guess answer) (List.range 5) s c
      (fun i hi => List.mem_range.mp hi) h with h1 | ⟨⟨i0, hi05, hic⟩, hall⟩
  · exact Or.inl h1
  · right
    intro hmem
    obtain ⟨j, hj5, hjc⟩ := mem_letterAt answer ha hmem
    obtain ⟨i2, hi25, hgi2, hng⟩ := getResultPattern_hit guess answer
      ⟨i0, hi05, hic⟩ ⟨j, hj5, hjc⟩
    exact hng (hall i2 hi25 hgi2)

theorem submitGuess_letters (st : SolverState) (guess : Word) (result : List Res) :
    (submitGuess st guess result).1.letters = st.letters ∨
      (submitGuess st guess result).1.letters =
        updateLetterTracking st.letters guess result := by
  unfold submitGuess
  by_cases h1 : guess.length ≠ 5
  · rw [if_pos h1]
    exact Or.inl rfl
  · rw [if_neg h1]
    by_cases h2 : st.allWords.contains guess
    · rw [if_neg (by simpa using h2)]
      exact Or.inr rfl
    · rw [if_pos (by simpa using h2)]
      exact Or.inl rfl

theorem runSession_letters_inv (answer : Word) (ha : answer.length = 5) :
    ∀ records : List (Word × List Res),
      (∀ gr ∈ records, gr.2 = getResultPattern gr.1 answer) →
      ∀ st : SolverState,
        (∀ c ∈ st.letters.known, c ∈ answer) →
        (∀ c ∈ st.letters.excluded, c ∉ answer) →
        (∀ c ∈ (runSession st records).letters.known, c ∈ answer) ∧
          (∀ c ∈ (runSession st records).letters.excluded, c ∉ answer) := by
  intro records
  induction records with
  | nil =>
    intro _ st h1 h2
    exact ⟨h1, h2⟩
  | cons gr rest ih =>
    intro hrec st h1 h2
    obtain ⟨guess, result⟩ := gr
    have hr : result = getResultPattern guess answer :=
      hrec (guess, result) (List.mem_cons_self _ _)
    rw [show runSession st ((guess, result) :: rest) =
        runSession (submitGuess st guess result).1 rest from rfl]
    apply ih (fun gr h => hrec gr (List.mem_cons_of_mem _ h))
    · intro c hc
      rcases submitGuess_letters st guess result with heq | heq
      · rw [heq] at hc
        exact h1 c hc
      · rw [heq, hr] at hc
        rcases updateLetterTracking_known_mem ha guess st.letters hc with h | h
        · exact h1 c h
        · exact h
    · intro c hc
      rcases submitGuess_letters st guess result with heq | heq
      · rw [heq] at hc
        exact h2 c hc
      · rw [heq, hr] at hc
        rcases updateLetterTracking_excluded_not_mem ha guess st.letters hc with h | h
        · exact h2 c h
        · exact h

/-- C8 counterexample: submitting ABCDE with all-grey feedback and then ABCDE
with A yellow (contradictory feedback the session accepts) leaves A in both the
known and the excluded sets, so the claimed disjointness fails as stated. -/
theorem letter_disjointness_counterexample :
    ¬ Disjoint
      (runSession (initialState [['A', 'B', 'C', 'D', 'E']] [['A', 'B', 'C', 'D', 'E']])
        [(['A', 'B', 'C', 'D', 'E'], [Res.grey, Res.grey, Res.grey, Res.grey, Res.grey]),
          (['A', 'B', 'C', 'D', 'E'],
            [Res.yellow, Res.grey, Res.grey, Res.grey, Res.grey])]).letters.known
      (runSession (initialState [['A', 'B', 'C', 'D', 'E']] [['A', 'B', 'C', 'D', 'E']])
        [(['A', 'B', 'C', 'D', 'E'], [Res.grey, Res.grey, Res.grey, Res.grey, Res.grey]),
          (['A', 'B', 'C', 'D', 'E'],
            [Res.yellow, Res.grey, Res.grey, Res.grey, Res.grey])]).letters.excluded :=
  Finset.not_disjoint_iff.mpr ⟨'A', by decide, by decide⟩

/-- C8 (amended): in every session state reachable from the initial state by
records whose feedback is the true pattern of the guess against one fixed
5-letter answer, the known and excluded letter sets are disjoint. With
contradictory feedback the code can place a letter in both sets. -/
theorem letter_disjointness_honest (answerWords allWords : List Word) (answer : Word)
    (records : List (Word × List Res)) (ha : answer.length = 5)
    (hrec : ∀ gr ∈ records, gr.2 = getResultPattern gr.1 answer) :
    Disjoint (runSession (initialState answerWords allWords) records).letters.known
      (runSession (initialState answerWords allWords) records).letters.excluded := by
  obtain ⟨hk, he⟩ := runSession_letters_inv answer ha records hrec
    (initialState answerWords allWords) (by simp [initialState, LetterState.empty])
    (by simp [initialState, LetterState.empty])
  rw [Finset.disjoint_left]
  intro c hc1 hc2
  exact he c hc2 (hk c hc1)

/-- Witness for C8 (amended): one honest CRANE-vs-CRANE record keeps the known
and excluded sets disjoint. -/
theorem letter_disjointness_honest_witness :
    Disjoint
      (runSession (initialState [['C', 'R', 'A', 'N', 'E']] [['C', 'R', 'A', 'N', 'E']])
        [(['C', 'R', 'A', 'N', 'E'],
          getResultPattern ['C', 'R', 'A', 'N', 'E']
            ['C', 'R', 'A', 'N', 'E'])]).letters.known
      (runSession (initialState [['C', 'R', 'A', 'N', 'E']] [['C', 'R', 'A', 'N', 'E']])
        [(['C', 'R', 'A', 'N', 'E'],
          getResultPattern ['C', 'R', 'A', 'N', 'E']
            ['C', 'R', 'A', 'N', 'E'])]).letters.excluded :=
  letter_disjointness_honest [['C', 'R', 'A', 'N', 'E']] [['C', 'R', 'A', 'N', 'E']]
    ['C', 'R', 'A', 'N', 'E'] _ (by decide) (by decide)

/-- C7: applying the constraint filter to a candidate set never increases its
size and only keeps words that were already candidates. -/
theorem monotonic_narrowing (guess : Word) (result : List Res) (possibleWords : List Word) :
    (filterWords guess result possibleWords).length ≤ possibleWords.length ∧
      filterWords guess result possibleWords ⊆ possibleWords :=
  ⟨List.length_filter_le _ _, (List.filter_sublist _).subset⟩

/-- C6: a guess that is not exactly five letters is rejected as `invalidLength`,
and a five-letter guess outside the allowed vocabulary is rejected as
`wordNotAllowed`; both rejections return the session state unchanged, so the
candidate set, the history, and the letter sets are untouched. -/
theorem rejections_never_mutate (st : SolverState) (guess : Word) (result : List Res) :
    (guess.length ≠ 5 →
        submitGuess st guess result = (st, some SubmitError.invalidLength)) ∧
      (guess.length = 5 → st.allWords.contains guess = false →
        submitGuess st guess result = (st, some SubmitError.wordNotAllowed)) := by
  constructor
  · intro h
    simp [submitGuess, h]
  · intro h5 hmem
    simp at hmem
    simp [submitGuess, h5, hmem]

/-- Witness for C6 at concrete inputs: a 4-letter guess and a 5-letter guess
missing from the allowed list are both rejected without touching the state. -/
theorem rejections_never_mutate_witness :
    submitGuess (initialState [] []) ['A', 'B', 'C', 'D'] [] =
        (initialState [] [], some SubmitError.invalidLength) ∧
      submitGuess (initialState [] []) ['A', 'B', 'C', 'D', 'E'] [] =
        (initialState [] [], some SubmitError.wordNotAllowed) :=
  ⟨(rejections_never_mutate _ _ _).1 (by decide),
    (rejections_never_mutate _ _ _).2 (by decide) (by decide)⟩

/-- C9: with an empty candidate set, `findTopGuesses` returns the empty list for
every requested count and every vocabulary, and the recommendation refresh
reports the empty candidate set explicitly instead of showing an empty list. -/
theorem empty_candidates_behaviour (allWords : List Word)
    (testedLetters excludedLetters : Finset Char) (numRecommendations : Nat) :
    findTopGuesses allWords [] testedLetters excludedLetters numRecommendations = [] ∧
      updateRecommendations allWords [] testedLetters excludedLetters =
        RecommendationOutcome.noWords := by
  constructor
  · simp [findTopGuesses]
  · simp [updateRecommendations]

-- Scenario sanity checks (spec §8): CRANE vs TRACE, and self-feedback.
example :
    getResultPattern "CRANE".toList "TRACE".toList =
      [Res.yellow, Res.green, Res.green, Res.grey, Res.green] := by decide

example :
    isWordCompatible "TRACE".toList "CRANE".toList
      (getResultPattern "CRANE".toList "TRACE".toList) = true := by decide

example :
    isWordCompatible "SPEED".toList "ERASE".toList
      (getResultPattern "ERASE".toList "SPEED".toList) = true := by decide
